import Mathlib

/-!
# Verification of the TemplateTacomReact response-normalization layer

This development shallowly embeds the data-normalization, field-aliasing,
date-conversion and request-guard logic of the repository
(`src/services/arquivoService.ts`, the unnamed service module containing
`getArquivos`/`getAll`/`mapToArquivo`, `src/hooks/useUploadedFiles.ts`,
`src/components/FileTable.tsx`, `src/pages/ArquivoDetail/index.tsx`,
`src/pages/ListarArquivos/index.tsx`) and proves the specification's
testable properties against it.

JSON values are modelled by the inductive `Json` below; JavaScript objects
are association lists in insertion order (JS objects have no duplicate
keys, and `Object.keys`/`Object.values` enumerate string keys in insertion
order). Machine numbers that the claims exercise are integers, modelled by
`Int`.
-/

namespace Tacom

/-- A parsed JSON value.  Objects are key/value lists in insertion order. -/
inductive Json where
  | null : Json
  | bool : Bool → Json
  | num : Int → Json
  | str : String → Json
  | arr : List Json → Json
  | obj : List (String × Json) → Json

/-- JS property lookup `o[k]` on an object's key/value list: the value of the
first binding whose key is `k` (`none` models `undefined`). -/
def assoc : List (String × Json) → String → Option Json
  | [], _ => none
  | (k', v) :: rest, k => if k' = k then some v else assoc rest k

/-- `Array.isArray` test. -/
def isArr : Json → Bool
  | .arr _ => true
  | _ => false

/-- `Object.values(obj).find((v) => Array.isArray(v))` — the first
array-valued property of the object, in insertion order (the fallback used
by `getArquivos`). -/
def firstArrayVal : List (String × Json) → Option (List Json)
  | [] => none
  | (_, .arr l) :: _ => some l
  | _ :: rest => firstArrayVal rest

/-- The array-extraction step of `getArquivos` (arquivoService lines
161-178): a bare array is used as-is; an object is searched for an array
under the priority keys "arquivo", "data", "result", then for its first
array-valued property; anything else yields the empty list. -/
def extractRawArray : Json → List Json
  | .arr l => l
  | .obj kvs =>
    match assoc kvs "arquivo" with
    | some (.arr l) => l
    | _ =>
      match assoc kvs "data" with
      | some (.arr l) => l
      | _ =>
        match assoc kvs "result" with
        | some (.arr l) => l
        | _ =>
          match firstArrayVal kvs with
          | some l => l
          | none => []
  | _ => []

/-- The response-shape normalization of `getAll` (arquivoService lines
221-238): a bare array is returned as-is; an object is searched for an
array under the priority keys "arquivo", "data", "result"; otherwise the
whole object is wrapped as a one-element list; anything else yields the
empty list. -/
def getAllData : Json → List Json
  | .arr l => l
  | .obj kvs =>
    match assoc kvs "arquivo" with
    | some (.arr l) => l
    | _ =>
      match assoc kvs "data" with
      | some (.arr l) => l
      | _ =>
        match assoc kvs "result" with
        | some (.arr l) => l
        | _ => [.obj kvs]
  | _ => []

/-- The array-valued properties of an object, in insertion order. -/
def arrayProps : List (String × Json) → List (String × List Json)
  | [] => []
  | (k, .arr l) :: rest => (k, l) :: arrayProps rest
  | _ :: rest => arrayProps rest

theorem assoc_mem {kvs : List (String × Json)} {k : String} {v : Json}
    (h : assoc kvs k = some v) : (k, v) ∈ kvs := by
  induction kvs with
  | nil => simp [assoc] at h
  | cons p rest ih =>
    obtain ⟨k', v'⟩ := p
    by_cases hk : k' = k
    · subst hk
      simp [assoc] at h
      simp [h]
    · simp [assoc, hk] at h
      exact List.mem_cons_of_mem _ (ih h)

theorem mem_arrayProps_of_mem {kvs : List (String × Json)} {k : String}
    {l : List Json} (h : (k, Json.arr l) ∈ kvs) : (k, l) ∈ arrayProps kvs := by
  induction kvs with
  | nil => simp at h
  | cons p rest ih =>
    rcases List.mem_cons.mp h with h1 | h2
    · subst h1
      simp [arrayProps]
    · obtain ⟨k', v'⟩ := p
      cases v' <;> simp [arrayProps] <;>
        first
          | exact ih h2
          | exact Or.inr (ih h2)

theorem firstArrayVal_eq_head :
    ∀ kvs : List (String × Json), firstArrayVal kvs = (arrayProps kvs).head?.map (·.2) := by
  intro kvs
  induction kvs with
  | nil => rfl
  | cons p rest ih =>
    obtain ⟨k, v⟩ := p
    cases v <;> simp [firstArrayVal, arrayProps, ih]

/-- Is an (optional) JS value an array?  `isArrO (assoc kvs k) = false` states
that key `k` does not hold an array in the object `kvs`. -/
def isArrO : Option Json → Bool
  | some (.arr _) => true
  | _ => false

theorem extractRawArray_obj_of_not_priority {kvs : List (String × Json)}
    (h1 : isArrO (assoc kvs "arquivo") = false)
    (h2 : isArrO (assoc kvs "data") = false)
    (h3 : isArrO (assoc kvs "result") = false) :
    extractRawArray (.obj kvs) = (firstArrayVal kvs).getD [] := by
  simp only [extractRawArray]
  split
  · rename_i l heq
    rw [heq] at h1
    simp [isArrO] at h1
  · split
    · rename_i l heq
      rw [heq] at h2
      simp [isArrO] at h2
    · split
      · rename_i l heq
        rw [heq] at h3
        simp [isArrO] at h3
      · split
        · rename_i l heq
          rw [heq]
          rfl
        · rename_i heq
          rw [heq]
          rfl

theorem getAllData_obj_of_not_priority {kvs : List (String × Json)}
    (h1 : isArrO (assoc kvs "arquivo") = false)
    (h2 : isArrO (assoc kvs "data") = false)
    (h3 : isArrO (assoc kvs "result") = false) :
    getAllData (.obj kvs) = [.obj kvs] := by
  simp only [getAllData]
  split
  · rename_i l heq
    rw [heq] at h1
    simp [isArrO] at h1
  · split
    · rename_i l heq
      rw [heq] at h2
      simp [isArrO] at h2
    · split
      · rename_i l heq
        rw [heq] at h3
        simp [isArrO] at h3
      · rfl

theorem isArrO_some (v : Json) : isArrO (some v) = isArr v := by
  cases v <;> rfl

theorem arr_of_isArrO {o : Option Json} (h : isArrO o = true) :
    ∃ l, o = some (.arr l) := by
  cases o with
  | none => simp [isArrO] at h
  | some v => cases v <;> simp_all [isArrO]

theorem extractRawArray_arquivo {kvs : List (String × Json)} {l : List Json}
    (h : assoc kvs "arquivo" = some (.arr l)) :
    extractRawArray (.obj kvs) = l := by
  simp [extractRawArray, h]

theorem getAllData_arquivo {kvs : List (String × Json)} {l : List Json}
    (h : assoc kvs "arquivo" = some (.arr l)) :
    getAllData (.obj kvs) = l := by
  simp [getAllData, h]

theorem extractRawArray_data {kvs : List (String × Json)} {l : List Json}
    (h1 : isArrO (assoc kvs "arquivo") = false)
    (h : assoc kvs "data" = some (.arr l)) :
    extractRawArray (.obj kvs) = l := by
  simp only [extractRawArray]
  split
  · rename_i l' heq
    rw [heq] at h1
    simp [isArrO] at h1
  · simp [h]

theorem getAllData_data {kvs : List (String × Json)} {l : List Json}
    (h1 : isArrO (assoc kvs "arquivo") = false)
    (h : assoc kvs "data" = some (.arr l)) :
    getAllData (.obj kvs) = l := by
  simp only [getAllData]
  split
  · rename_i l' heq
    rw [heq] at h1
    simp [isArrO] at h1
  · simp [h]

theorem extractRawArray_result {kvs : List (String × Json)} {l : List Json}
    (h1 : isArrO (assoc kvs "arquivo") = false)
    (h2 : isArrO (assoc kvs "data") = false)
    (h : assoc kvs "result" = some (.arr l)) :
    extractRawArray (.obj kvs) = l := by
  simp only [extractRawArray]
  split
  · rename_i l' heq
    rw [heq] at h1
    simp [isArrO] at h1
  · split
    · rename_i l' heq
      rw [heq] at h2
      simp [isArrO] at h2
    · simp [h]

theorem getAllData_result {kvs : List (String × Json)} {l : List Json}
    (h1 : isArrO (assoc kvs "arquivo") = false)
    (h2 : isArrO (assoc kvs "data") = false)
    (h : assoc kvs "result" = some (.arr l)) :
    getAllData (.obj kvs) = l := by
  simp only [getAllData]
  split
  · rename_i l' heq
    rw [heq] at h1
    simp [isArrO] at h1
  · split
    · rename_i l' heq
      rw [heq] at h2
      simp [isArrO] at h2
    · simp [h]

theorem priority_not_arr_of_unique {kvs : List (String × Json)} {key k : String}
    {l : List Json} (hu : arrayProps kvs = [(k, l)]) (hk : key ≠ k) :
    isArrO (assoc kvs key) = false := by
  cases ha : assoc kvs key with
  | none => rfl
  | some v =>
    cases v with
    | arr l' =>
      exfalso
      have hm := mem_arrayProps_of_mem (assoc_mem ha)
      rw [hu] at hm
      simp at hm
      exact hk hm.1
    | null => rfl
    | bool b => rfl
    | num n => rfl
    | str s => rfl
    | obj o => rfl

theorem extractRawArray_of_unique {kvs : List (String × Json)} {k : String}
    {l : List Json} (hu : arrayProps kvs = [(k, l)]) :
    extractRawArray (.obj kvs) = l := by
  cases h1 : isArrO (assoc kvs "arquivo") with
  | true =>
    obtain ⟨l', hl'⟩ := arr_of_isArrO h1
    have hm := mem_arrayProps_of_mem (assoc_mem hl')
    rw [hu] at hm
    simp at hm
    rw [extractRawArray_arquivo hl', hm.2]
  | false =>
    cases h2 : isArrO (assoc kvs "data") with
    | true =>
      obtain ⟨l', hl'⟩ := arr_of_isArrO h2
      have hm := mem_arrayProps_of_mem (assoc_mem hl')
      rw [hu] at hm
      simp at hm
      rw [extractRawArray_data h1 hl', hm.2]
    | false =>
      cases h3 : isArrO (assoc kvs "result") with
      | true =>
        obtain ⟨l', hl'⟩ := arr_of_isArrO h3
        have hm := mem_arrayProps_of_mem (assoc_mem hl')
        rw [hu] at hm
        simp at hm
        rw [extractRawArray_result h1 h2 hl', hm.2]
      | false =>
        rw [extractRawArray_obj_of_not_priority h1 h2 h3, firstArrayVal_eq_head, hu]
        rfl

theorem arrayProps_eq_nil {kvs : List (String × Json)}
    (h : ∀ p ∈ kvs, isArr p.2 = false) : arrayProps kvs = [] := by
  induction kvs with
  | nil => rfl
  | cons p rest ih =>
    obtain ⟨k, v⟩ := p
    have hv := h (k, v) (List.mem_cons_self _ _)
    have ht : ∀ q ∈ rest, isArr q.2 = false :=
      fun q hq => h q (List.mem_cons_of_mem _ hq)
    cases v with
    | arr l => simp [isArr] at hv
    | null => simpa [arrayProps] using ih ht
    | bool b => simpa [arrayProps] using ih ht
    | num n => simpa [arrayProps] using ih ht
    | str s => simpa [arrayProps] using ih ht
    | obj o => simpa [arrayProps] using ih ht

theorem isArrO_assoc_of_forall {kvs : List (String × Json)} (k : String)
    (h : ∀ p ∈ kvs, isArr p.2 = false) : isArrO (assoc kvs k) = false := by
  cases ha : assoc kvs k with
  | none => rfl
  | some v =>
    rw [isArrO_some]
    exact h (k, v) (assoc_mem ha)

/-- C1 (amended).  List normalization on an object body: both `getArquivos`
and `getAll` extract the value of the first key among "arquivo", "data",
"result" that holds an array.  When none of those keys holds an array,
`getArquivos` falls back to the first array-valued property in insertion
order (so for a wrapper object with exactly one array-valued property it
extracts that array regardless of its key name), while `getAll` instead
wraps the whole object as a one-element list — the first-array-property
fallback and the any-key-name extraction hold only for `getArquivos`. -/
theorem getArquivos_getAll_object_extraction :
    ∀ (kvs : List (String × Json)) (k : String) (l : List Json),
      (assoc kvs "arquivo" = some (.arr l) →
        extractRawArray (.obj kvs) = l ∧ getAllData (.obj kvs) = l) ∧
      (isArrO (assoc kvs "arquivo") = false →
        assoc kvs "data" = some (.arr l) →
        extractRawArray (.obj kvs) = l ∧ getAllData (.obj kvs) = l) ∧
      (isArrO (assoc kvs "arquivo") = false →
        isArrO (assoc kvs "data") = false →
        assoc kvs "result" = some (.arr l) →
        extractRawArray (.obj kvs) = l ∧ getAllData (.obj kvs) = l) ∧
      (isArrO (assoc kvs "arquivo") = false →
        isArrO (assoc kvs "data") = false →
        isArrO (assoc kvs "result") = false →
        extractRawArray (.obj kvs) = (firstArrayVal kvs).getD [] ∧
        getAllData (.obj kvs) = [.obj kvs]) ∧
      (arrayProps kvs = [(k, l)] → extractRawArray (.obj kvs) = l) := by
  intro kvs k l
  refine ⟨fun h => ⟨extractRawArray_arquivo h, getAllData_arquivo h⟩,
          fun h1 h => ⟨extractRawArray_data h1 h, getAllData_data h1 h⟩,
          fun h1 h2 h => ⟨extractRawArray_result h1 h2 h, getAllData_result h1 h2 h⟩,
          fun h1 h2 h3 => ⟨extractRawArray_obj_of_not_priority h1 h2 h3,
                           getAllData_obj_of_not_priority h1 h2 h3⟩,
          fun hu => extractRawArray_of_unique hu⟩

/-- C1 counterexample: a wrapper object with exactly one array-valued
property, under the key "items", is NOT extracted by `getAll`; the whole
wrapper is wrapped as a single record instead of the inner array. -/
theorem getAll_single_array_prop_not_extracted :
    getAllData (Json.obj [("items", Json.arr [Json.num 1])])
        = [Json.obj [("items", Json.arr [Json.num 1])]] ∧
      getAllData (Json.obj [("items", Json.arr [Json.num 1])]) ≠ [Json.arr [Json.num 1]] ∧
      getAllData (Json.obj [("items", Json.arr [Json.num 1])]) ≠ [Json.num 1] := by
  refine ⟨rfl, ?_, ?_⟩ <;> · intro h; simp [getAllData, assoc] at h

/-- Witness for C1: on a wrapper whose only array-valued property sits
under the non-priority key "stuff", `getArquivos` extracts the array and
`getAll` wraps the whole object. -/
theorem getArquivos_getAll_object_extraction_witness :
    extractRawArray (Json.obj [("foo", Json.str "x"), ("stuff", Json.arr [Json.num 7])])
        = [Json.num 7] ∧
      getAllData (Json.obj [("foo", Json.str "x"), ("stuff", Json.arr [Json.num 7])])
        = [Json.obj [("foo", Json.str "x"), ("stuff", Json.arr [Json.num 7])]] := by
  have h := getArquivos_getAll_object_extraction
    [("foo", Json.str "x"), ("stuff", Json.arr [Json.num 7])] "stuff" [Json.num 7]
  exact ⟨h.2.2.2.2 rfl, (h.2.2.2.1 rfl rfl rfl).2⟩

/-! ## String and number primitives of the JavaScript runtime -/

/-- The decimal digit character for `n < 10`. -/
def digitChar (n : Nat) : Char :=
  if n = 0 then '0' else if n = 1 then '1' else if n = 2 then '2'
  else if n = 3 then '3' else if n = 4 then '4' else if n = 5 then '5'
  else if n = 6 then '6' else if n = 7 then '7' else if n = 8 then '8' else '9'

/-- Decimal representation of a natural number, most significant digit
first (the JS `String(n)` / `Number.prototype.toString` form for
non-negative integers). -/
def natToChars (n : Nat) : List Char :=
  if n < 10 then [digitChar n]
  else natToChars (n / 10) ++ [digitChar (n % 10)]
decreasing_by omega

/-- JS `String(n)` for an integer: decimal digits with a leading '-' when
negative. -/
def intToChars (n : Int) : List Char :=
  if n < 0 then '-' :: natToChars (-n).toNat else natToChars n.toNat

/-- JS `String(n)` for an integer, as a `String`. -/
def intToString (n : Int) : String :=
  (intToChars n).asString

mutual

/-- JS `String(v)` on a JSON value: strings unchanged, numbers in decimal,
booleans and null by name, plain objects as "[object Object]", arrays by
joining the elementwise conversions with "," (`Array.prototype.toString`).
-/
def jsStringOfJson : Json → String
  | .null => "null"
  | .bool true => "true"
  | .bool false => "false"
  | .num n => intToString n
  | .str s => s
  | .obj _ => "[object Object]"
  | .arr l => String.intercalate "," (jsStringList l)

/-- Elementwise `String(v)` for `Array.prototype.join`: null (and
undefined) entries become the empty string. -/
def jsStringList : List Json → List String
  | [] => []
  | .null :: xs => "" :: jsStringList xs
  | x :: xs => jsStringOfJson x :: jsStringList xs

end

/-- Value of a list of decimal digit characters. -/
def digitsVal (l : List Char) : Nat :=
  l.foldl (fun a c => 10 * a + (c.toNat - 48)) 0

/-- The maximal leading run of decimal digits, `none` when there is none
(JS `parseInt` returns NaN in that case). -/
def parseIntDigits (l : List Char) : Option Nat :=
  let ds := l.takeWhile Char.isDigit
  if ds.isEmpty then none else some (digitsVal ds)

/-- JS whitespace stripped by `parseInt`. -/
def isJsSpace (c : Char) : Bool :=
  c = ' ' || c = '\t' || c = '\n' || c = '\r'

/-- JS `parseInt(s, 10)`: skip leading whitespace, accept an optional sign,
then consume a maximal run of decimal digits; NaN (modelled as `none`)
when no digit is consumed. -/
def parseIntJs (s : String) : Option Int :=
  match s.toList.dropWhile isJsSpace with
  | '-' :: rest => (parseIntDigits rest).map (fun n => -(n : Int))
  | '+' :: rest => (parseIntDigits rest).map (fun n => (n : Int))
  | rest => (parseIntDigits rest).map (fun n => (n : Int))

/-- Numeric decoding `toNumber` inside `mapToArquivo` (arquivoService lines
104-111): numbers pass through, strings have every non-digit removed
(`v.replace(/\D+/g, "")`) and are then parsed with `parseInt(_, 10)`,
yielding 0 on NaN; every other shape yields 0. -/
def toNumber : Json → Int
  | .num n => n
  | .str s =>
    match parseIntJs (String.mk (s.toList.filter Char.isDigit)) with
    | some n => n
    | none => 0
  | _ => 0

/-- The numeric decoding of `getNumber` in ArquivoDetail (lines 113-119)
applied to the string produced by `getString`: strip every character other
than digits and '-' (`replace(/[^\d-]+/g, "")`), parse with
`parseInt(_, 10)`, and return 0 unless the result is a finite number. -/
def getNumberOfString (s : String) : Int :=
  let cleaned := String.mk (s.toList.filter (fun c => c.isDigit || c = '-'))
  match parseIntJs cleaned with
  | some n => n
  | none => 0

/-! ## Field aliasing: `getVal` and `mapToArquivo` -/

/-- JS `String.prototype.toLowerCase`, character by character. -/
def jsToLower (s : String) : String :=
  String.mk (s.toList.map Char.toLower)

/-- `Object.keys(item).find((objK) => objK.toLowerCase() ===
k.toLowerCase())`: the first key of the object (insertion order) that
matches `k` case-insensitively. -/
def firstCiKey (item : List (String × Json)) (k : String) : Option String :=
  (item.map Prod.fst).find? (fun objK => jsToLower objK == jsToLower k)

/-- `getVal` (arquivoService lines 87-95): walk the alias list; for each
alias return the exactly-keyed value when present and non-null, otherwise
the value of the first case-insensitively matching key when one exists
(JS then returns that value even when it is null; an empty-string key is
falsy and is skipped); otherwise move to the next alias.  `none` models
the final `undefined`. -/
def getVal (item : List (String × Json)) : List String → Option Json
  | [] => none
  | k :: ks =>
    let exactHit : Option Json :=
      match assoc item k with
      | some Json.null => none
      | some v => some v
      | none => none
    match exactHit with
    | some v => some v
    | none =>
      match firstCiKey item k with
      | some fk =>
        if fk = "" then getVal item ks
        else some ((assoc item fk).getD Json.null)
      | none => getVal item ks

/-- `x ?? dflt`: JS nullish coalescing on the (optional, possibly null)
result of `getVal`. -/
def coalesce (o : Option Json) (d : Json) : Json :=
  match o with
  | some Json.null => d
  | some v => v
  | none => d

/-- Normalized uploaded-file row (the `Arquivo` interface); `raw` keeps
the original payload (`_raw`). -/
structure Arquivo where
  nomeArquivo : String
  quantidadeRegistro : Int
  aptos : Int
  semDocumento : Int
  comCodigoSetps : Int
  comErro : Int
  raw : Json

/-- Alias list for the file-name field. -/
def nomeKeys : List String := ["nomearquivo", "nome_arquivo", "nomeArquivo", "nome"]

/-- Alias list for the record-count field. -/
def quantidadeKeys : List String :=
  ["quantidaderegistro", "quantidade_registro", "quantidadeRegistro", "quantidade"]

/-- Alias list for the accepted-count field. -/
def aptosKeys : List String := ["aptos"]

/-- Alias list for the missing-document-count field. -/
def semDocumentoKeys : List String := ["semdocumento", "sem_documento", "semDocumento"]

/-- Alias list for the coded-error-count field. -/
def comCodigoKeys : List String :=
  ["comcodigosetps", "com_codigo_setps", "comCodigoSetps", "comCodigosSetps"]

/-- Alias list for the generic-error-count field. -/
def comErroKeys : List String := ["comerro", "com_erro", "comErro", "erros"]

/-- `mapToArquivo` (arquivoService lines 85-122): decode the six canonical
fields through `getVal` over the documented alias lists, with `?? ""` /
`?? 0` defaults, `String(...)` for the name and `toNumber` for the five
numeric fields. -/
def mapToArquivo (item : List (String × Json)) : Arquivo :=
  { nomeArquivo := jsStringOfJson (coalesce (getVal item nomeKeys) (Json.str ""))
    quantidadeRegistro := toNumber (coalesce (getVal item quantidadeKeys) (Json.num 0))
    aptos := toNumber (coalesce (getVal item aptosKeys) (Json.num 0))
    semDocumento := toNumber (coalesce (getVal item semDocumentoKeys) (Json.num 0))
    comCodigoSetps := toNumber (coalesce (getVal item comCodigoKeys) (Json.num 0))
    comErro := toNumber (coalesce (getVal item comErroKeys) (Json.num 0))
    raw := Json.obj item }

/-- A JS array viewed as an object: its keys are the decimal index
strings, in order. -/
def indexedPairs (l : List Json) : List (String × Json) :=
  l.enum.map fun p => (intToString p.1, p.2)

/-- One step of `rawArray.map` in `getArquivos` (lines 184-198): objects
(JS arrays included, since `typeof [] === "object"`) go through
`mapToArquivo`; a primitive item becomes a mostly empty record whose name
is `String(it ?? "")` and whose raw payload is `{ value: it }`. -/
def arquivoOfItem : Json → Arquivo
  | .obj kvs => mapToArquivo kvs
  | .arr l => mapToArquivo (indexedPairs l)
  | it =>
    { nomeArquivo := jsStringOfJson (coalesce (some it) (Json.str ""))
      quantidadeRegistro := 0
      aptos := 0
      semDocumento := 0
      comCodigoSetps := 0
      comErro := 0
      raw := Json.obj [("value", it)] }

/-- The response-data processing of `getArquivos` (lines 161-200): locate
the raw array, return `[]` when none/empty, otherwise map every raw item
to an `Arquivo`. -/
def getArquivosData (data : Json) : List Arquivo :=
  let rawArray := extractRawArray data
  if rawArray.isEmpty then [] else rawArray.map arquivoOfItem

/-- C2 (amended).  For a parsed object body with no array-valued property
at all, `getAll` treats the entire object as a single record and returns a
one-element list, while `getArquivos` instead returns the empty list. -/
theorem no_array_prop_normalization :
    ∀ kvs : List (String × Json), (∀ p ∈ kvs, isArr p.2 = false) →
      getAllData (.obj kvs) = [.obj kvs] ∧ getArquivosData (.obj kvs) = [] := by
  intro kvs h
  have h1 := isArrO_assoc_of_forall "arquivo" h
  have h2 := isArrO_assoc_of_forall "data" h
  have h3 := isArrO_assoc_of_forall "result" h
  have hfa : firstArrayVal kvs = none := by
    rw [firstArrayVal_eq_head, arrayProps_eq_nil h]
    rfl
  have hex : extractRawArray (.obj kvs) = [] := by
    rw [extractRawArray_obj_of_not_priority h1 h2 h3, hfa]
    rfl
  exact ⟨getAllData_obj_of_not_priority h1 h2 h3, by simp [getArquivosData, hex]⟩

/-- C2 counterexample: on an object body with no array-valued property,
`getArquivos` returns the empty list, not a one-element list wrapping the
object. -/
theorem getArquivos_no_array_object_empty :
    getArquivosData (Json.obj [("nomearquivo", Json.str "a")]) = [] ∧
      (getArquivosData (Json.obj [("nomearquivo", Json.str "a")])).length ≠ 1 := by
  constructor
  · rfl
  · intro h
    simp [getArquivosData, extractRawArray, assoc, firstArrayVal] at h

/-- Witness for C2 at the object `{"a": 1}`. -/
theorem no_array_prop_normalization_witness :
    getAllData (Json.obj [("a", Json.num 1)]) = [Json.obj [("a", Json.num 1)]] ∧
      getArquivosData (Json.obj [("a", Json.num 1)]) = [] := by
  refine no_array_prop_normalization [("a", Json.num 1)] ?_
  intro p hp
  simp at hp
  rw [hp]
  rfl

/-- C3.  For every structurally valid JSON body, the response processing
of `getArquivos` is total: it yields a list of `Arquivo` records, one per
extracted raw item of whatever shape, and the empty list when nothing is
extracted — it never fails. -/
theorem getArquivos_total_on_any_json :
    ∀ data : Json,
      (getArquivosData data).length = (extractRawArray data).length ∧
      (extractRawArray data = [] → getArquivosData data = []) := by
  intro d
  constructor
  · simp only [getArquivosData]
    split
    · rename_i h
      rw [List.isEmpty_iff.mp h]
      rfl
    · simp
  · intro h
    simp [getArquivosData, h]

/-- Witness for C3 at the primitive body `"x"` (nothing extracted, empty
result). -/
theorem getArquivos_total_on_any_json_witness :
    (getArquivosData (Json.str "x")).length = (extractRawArray (Json.str "x")).length ∧
      getArquivosData (Json.str "x") = [] := by
  have h := getArquivos_total_on_any_json (Json.str "x")
  exact ⟨h.1, h.2 rfl⟩

theorem parseIntDigits_none {l : List Char} (h : ∀ c ∈ l, c.isDigit = false) :
    parseIntDigits l = none := by
  cases l with
  | nil => rfl
  | cons c rest =>
    have hc := h c (List.mem_cons_self _ _)
    simp [parseIntDigits, List.takeWhile, hc]

theorem parseIntJs_none {s : String} (h : ∀ c ∈ s.toList, c.isDigit = false) :
    parseIntJs s = none := by
  have hd : ∀ c ∈ s.toList.dropWhile isJsSpace, c.isDigit = false :=
    fun c hc => h c ((s.toList.dropWhile_sublist isJsSpace).subset hc)
  unfold parseIntJs
  split
  · rename_i rest heq
    have : ∀ c ∈ rest, c.isDigit = false := by
      intro c hc
      rw [heq] at hd
      exact hd c (List.mem_cons_of_mem _ hc)
    rw [parseIntDigits_none this]
    rfl
  · rename_i rest heq
    have : ∀ c ∈ rest, c.isDigit = false := by
      intro c hc
      rw [heq] at hd
      exact hd c (List.mem_cons_of_mem _ hc)
    rw [parseIntDigits_none this]
    rfl
  · rename_i hne1 hne2
    rw [parseIntDigits_none hd]
    rfl

/-- C7.  Numeric decoding never throws and strips non-numeric characters:
`toNumber` and the `getNumber` string decoding both send "1.234" to 1234
and "abc" to 0; a numeric input passes through `toNumber` unchanged; and
whenever nothing parseable remains after stripping, the result is 0. -/
theorem numeric_decoding_policy :
    ∀ (s : String) (n : Int),
      toNumber (Json.str "1.234") = 1234 ∧
      getNumberOfString "1.234" = 1234 ∧
      toNumber (Json.str "abc") = 0 ∧
      getNumberOfString "abc" = 0 ∧
      toNumber (Json.num n) = n ∧
      (s.toList.filter Char.isDigit = [] → toNumber (Json.str s) = 0) ∧
      ((∀ c ∈ s.toList, c.isDigit = false) → getNumberOfString s = 0) := by
  intro s n
  refine ⟨by decide, by decide, by decide, by decide, rfl, ?_, ?_⟩
  · intro h
    simp only [toNumber]
    rw [h]
    rfl
  · intro h
    have hc : ∀ c ∈ (String.mk (s.toList.filter (fun c => c.isDigit || c = '-'))).toList,
        c.isDigit = false := by
      intro c hcm
      exact h c (List.mem_of_mem_filter hcm)
    simp only [getNumberOfString]
    rw [parseIntJs_none hc]

/-- Witness for C7 at the digit-free string "x-y" and the number 42. -/
theorem numeric_decoding_policy_witness :
    toNumber (Json.str "1.234") = 1234 ∧
      toNumber (Json.num 42) = 42 ∧
      toNumber (Json.str "x-y") = 0 ∧
      getNumberOfString "x-y" = 0 := by
  have h := numeric_decoding_policy "x-y" 42
  exact ⟨h.1, h.2.2.2.2.1, h.2.2.2.2.2.1 (by decide), h.2.2.2.2.2.2 (by decide)⟩

/-- C8.  Alias resolution in `mapToArquivo`: for each alias in order,
`getVal` first takes an exact key match (with non-null value), then the
first case-insensitive key match, stopping at the first hit; an alias with
neither falls through to the next alias; and a field none of whose aliases
matches decodes to the empty string (file name) or 0 (the five numeric
fields). -/
theorem mapToArquivo_alias_resolution :
    ∀ (item : List (String × Json)) (k : String) (ks : List String) (v : Json),
      (assoc item k = some v → v ≠ Json.null → getVal item (k :: ks) = some v) ∧
      ((assoc item k = none ∨ assoc item k = some Json.null) →
        ∀ fk, firstCiKey item k = some fk → fk ≠ "" →
          getVal item (k :: ks) = some ((assoc item fk).getD Json.null)) ∧
      (assoc item k = none → firstCiKey item k = none →
        getVal item (k :: ks) = getVal item ks) ∧
      (getVal item nomeKeys = none → (mapToArquivo item).nomeArquivo = "") ∧
      (getVal item quantidadeKeys = none → (mapToArquivo item).quantidadeRegistro = 0) ∧
      (getVal item aptosKeys = none → (mapToArquivo item).aptos = 0) ∧
      (getVal item semDocumentoKeys = none → (mapToArquivo item).semDocumento = 0) ∧
      (getVal item comCodigoKeys = none → (mapToArquivo item).comCodigoSetps = 0) ∧
      (getVal item comErroKeys = none → (mapToArquivo item).comErro = 0) := by
  intro item k ks v
  refine ⟨?_, ?_, ?_, ?_, ?_, ?_, ?_, ?_, ?_⟩
  · intro h hv
    cases v with
    | null => exact absurd rfl hv
    | bool b => simp [getVal, h]
    | num n => simp [getVal, h]
    | str s => simp [getVal, h]
    | arr l => simp [getVal, h]
    | obj o => simp [getVal, h]
  · rintro (h | h) fk hfk hne <;> simp [getVal, h, hfk, hne]
  · intro h hci
    simp [getVal, h, hci]
  · intro h
    simp [mapToArquivo, h, coalesce, jsStringOfJson]
  · intro h
    simp [mapToArquivo, h, coalesce, toNumber]
  · intro h
    simp [mapToArquivo, h, coalesce, toNumber]
  · intro h
    simp [mapToArquivo, h, coalesce, toNumber]
  · intro h
    simp [mapToArquivo, h, coalesce, toNumber]
  · intro h
    simp [mapToArquivo, h, coalesce, toNumber]

/-- Witness for C8 on the object `{"NomeArquivo": "f", "aptos": 3}`:
exact match wins for "aptos", the case-insensitive fallback finds
"NomeArquivo" for alias "nomearquivo", a fully missing alias falls
through, and a field with no matching alias decodes to 0. -/
theorem mapToArquivo_alias_resolution_witness :
    getVal [("NomeArquivo", Json.str "f"), ("aptos", Json.num 3)] ["aptos"]
        = some (Json.num 3) ∧
      getVal [("NomeArquivo", Json.str "f"), ("aptos", Json.num 3)] ["nomearquivo"]
        = some (Json.str "f") ∧
      getVal [("NomeArquivo", Json.str "f"), ("aptos", Json.num 3)]
          ("quantidaderegistro" :: []) =
        getVal [("NomeArquivo", Json.str "f"), ("aptos", Json.num 3)] [] ∧
      (mapToArquivo [("NomeArquivo", Json.str "f"), ("aptos", Json.num 3)]).comErro = 0 := by
  have h1 := mapToArquivo_alias_resolution
    [("NomeArquivo", Json.str "f"), ("aptos", Json.num 3)] "aptos" [] (Json.num 3)
  have h2 := mapToArquivo_alias_resolution
    [("NomeArquivo", Json.str "f"), ("aptos", Json.num 3)] "nomearquivo" [] (Json.num 3)
  have h3 := mapToArquivo_alias_resolution
    [("NomeArquivo", Json.str "f"), ("aptos", Json.num 3)] "quantidaderegistro" []
    (Json.num 3)
  refine ⟨h1.1 rfl (fun hx => Json.noConfusion hx), ?_, h3.2.2.1 rfl (by rfl),
    h3.2.2.2.2.2.2.2.2 (by rfl)⟩
  have := h2.2.1 (Or.inl rfl) "NomeArquivo" (by rfl) (by decide)
  simpa [assoc] using this

/-! ## Pagination reconciliation in `useUploadedFiles.fetchList` -/

/-- JS `data?.k`: optional-chained property access, `undefined` (`none`)
unless `data` is an object with the key. -/
def getField : Json → String → Option Json
  | .obj kvs, k => assoc kvs k
  | _, _ => none

/-- Item extraction in `fetchList` (useUploadedFiles lines 63-64):
`Array.isArray(data?.items) ? data.items : Array.isArray(data) ? data : []`.
-/
def receivedItems (data : Json) : List Json :=
  match getField data "items" with
  | some (.arr l) => l
  | _ =>
    match data with
    | .arr l => l
    | _ => []

/-- A JS number that is either NaN or an integer value. -/
inductive JsNum where
  | nan : JsNum
  | val : Int → JsNum
deriving DecidableEq

/-- JS `Number(s)` on a string, for the integer grammar: surrounding
whitespace is trimmed, the empty string is 0, an optionally signed digit
run is its value, and anything else is NaN (fractional/exponent/hex forms
do not occur in a total-count header). -/
def jsNumberOfString (s : String) : JsNum :=
  match (s.toList.dropWhile isJsSpace).reverse.dropWhile isJsSpace |>.reverse with
  | [] => .val 0
  | '-' :: rest =>
    if !rest.isEmpty && rest.all Char.isDigit then .val (-(digitsVal rest : Int)) else .nan
  | '+' :: rest =>
    if !rest.isEmpty && rest.all Char.isDigit then .val (digitsVal rest) else .nan
  | l => if l.all Char.isDigit then .val (digitsVal l) else .nan

/-- Is an (optional) JS value a number (`typeof v === "number"`)? -/
def isNumO : Option Json → Bool
  | some (.num _) => true
  | _ => false

/-- Total-count resolution in `fetchList` (useUploadedFiles lines 68-71):
a numeric `total` field of the body wins; otherwise a present
"x-total-count" header string is parsed with `Number(...)`; otherwise the
length of the received item list is used. -/
def resolveTotal (data : Json) (xTotalCount : Option String) (received : List Json) : JsNum :=
  match getField data "total" with
  | some (.num n) => .val n
  | _ =>
    match xTotalCount with
    | some s => jsNumberOfString s
    | none => .val received.length

/-- C4.  `fetchList` resolves the total in the order: numeric body `total`
field, then the "x-total-count" header parsed as a number, then the length
of the extracted item list; for a bare array body with a total-count
header the header value wins, not the array length. -/
theorem fetchList_total_resolution :
    ∀ (data : Json) (hdr : Option String) (n : Int) (s : String) (l : List Json),
      (getField data "total" = some (.num n) →
        resolveTotal data hdr (receivedItems data) = .val n) ∧
      (isNumO (getField data "total") = false → hdr = some s →
        resolveTotal data hdr (receivedItems data) = jsNumberOfString s) ∧
      (isNumO (getField data "total") = false → hdr = none →
        resolveTotal data hdr (receivedItems data) = .val (receivedItems data).length) ∧
      (data = .arr l → hdr = some s →
        resolveTotal data hdr (receivedItems data) = jsNumberOfString s ∧
          receivedItems data = l) := by
  intro data hdr n s l
  refine ⟨?_, ?_, ?_, ?_⟩
  · intro h
    simp [resolveTotal, h]
  · intro h hh
    simp only [resolveTotal]
    split
    · rename_i m heq
      rw [heq] at h
      simp [isNumO] at h
    · rw [hh]
  · intro h hh
    simp only [resolveTotal]
    split
    · rename_i m heq
      rw [heq] at h
      simp [isNumO] at h
    · rw [hh]
  · intro hd hh
    subst hd
    exact ⟨by simp [resolveTotal, getField, hh], by simp [receivedItems, getField]⟩

/-- Witness for C4: bare array body of length 2 with header "42" resolves
to the header value 42, not 2. -/
theorem fetchList_total_resolution_witness :
    resolveTotal (Json.arr [Json.num 5, Json.num 6]) (some "42")
        (receivedItems (Json.arr [Json.num 5, Json.num 6])) = .val 42 ∧
      receivedItems (Json.arr [Json.num 5, Json.num 6]) = [Json.num 5, Json.num 6] ∧
      (receivedItems (Json.arr [Json.num 5, Json.num 6])).length = 2 := by
  have h := (fetchList_total_resolution (Json.arr [Json.num 5, Json.num 6]) (some "42")
    0 "42" [Json.num 5, Json.num 6]).2.2.2 rfl rfl
  refine ⟨?_, h.2, by rw [h.2]; rfl⟩
  rw [h.1]
  rfl

/-! ## `getUploadedFileById` request guard -/

/-- The possible shapes of the `id` argument of `getUploadedFileById`
(declared `string | number`, with `undefined`/`null` arriving through
untyped callers, which the guard explicitly tests for). -/
inductive IdArg where
  | undef : IdArg
  | nullv : IdArg
  | str : String → IdArg
  | num : Int → IdArg
deriving DecidableEq

/-- What the function does: reject without any network call, or issue a
single GET request to the given URL. -/
inductive FetchAction where
  | reject : String → FetchAction
  | getReq : String → FetchAction
deriving DecidableEq

/-- JS `String(id)`. -/
def jsStringOfId : IdArg → String
  | .undef => "undefined"
  | .nullv => "null"
  | .str s => s
  | .num n => intToString n

/-- Characters that `encodeURIComponent` leaves unescaped. -/
def uriUnreserved (c : Char) : Bool :=
  c.isAlpha || c.isDigit ||
    c = '-' || c = '_' || c = '.' || c = '!' || c = '~' || c = '*' ||
    c = '\'' || c = '(' || c = ')'

/-- The UTF-8 bytes of a character. -/
def utf8Bytes (c : Char) : List Nat :=
  let n := c.toNat
  if n < 0x80 then [n]
  else if n < 0x800 then [0xC0 + n / 0x40, 0x80 + n % 0x40]
  else if n < 0x10000 then
    [0xE0 + n / 0x1000, 0x80 + (n / 0x40) % 0x40, 0x80 + n % 0x40]
  else
    [0xF0 + n / 0x40000, 0x80 + (n / 0x1000) % 0x40, 0x80 + (n / 0x40) % 0x40,
      0x80 + n % 0x40]

/-- Uppercase hexadecimal digit. -/
def hexDigit (n : Nat) : Char :=
  if n < 10 then digitChar n
  else if n = 10 then 'A' else if n = 11 then 'B' else if n = 12 then 'C'
  else if n = 13 then 'D' else if n = 14 then 'E' else 'F'

/-- Percent-encoding of one byte. -/
def pctByte (b : Nat) : List Char :=
  ['%', hexDigit (b / 16), hexDigit (b % 16)]

/-- JS `encodeURIComponent`: unreserved characters pass through, every
other character is replaced by the percent-encoding of its UTF-8 bytes. -/
def encodeURIComponent (s : String) : String :=
  String.mk (s.toList.map
    (fun c => if uriUnreserved c then [c] else ((utf8Bytes c).map pctByte).flatten)).flatten

/-- `getUploadedFileById` (arquivoService lines 158-167): reject without a
network call when the id is undefined, null or the empty string; otherwise
issue one GET to `/arquivos/` followed by the URI-encoded string form of
the id. -/
def getUploadedFileById (id : IdArg) : FetchAction :=
  if id = .undef ∨ id = .nullv ∨ id = .str "" then
    .reject "Invalid id supplied to getUploadedFileById"
  else
    .getReq ("/arquivos/" ++ encodeURIComponent (jsStringOfId id))

/-- C10.  `getUploadedFileById` rejects undefined, null and empty-string
ids without issuing a request, and for every other id issues exactly one
GET to "/arquivos/" followed by the URI-encoded string form of the id. -/
theorem getUploadedFileById_guard :
    ∀ (s : String) (n : Int),
      getUploadedFileById .undef = .reject "Invalid id supplied to getUploadedFileById" ∧
      getUploadedFileById .nullv = .reject "Invalid id supplied to getUploadedFileById" ∧
      getUploadedFileById (.str "") = .reject "Invalid id supplied to getUploadedFileById" ∧
      (s ≠ "" → getUploadedFileById (.str s)
        = .getReq ("/arquivos/" ++ encodeURIComponent s)) ∧
      getUploadedFileById (.num n) = .getReq ("/arquivos/" ++ encodeURIComponent (intToString n)) := by
  intro s n
  refine ⟨rfl, rfl, rfl, ?_, ?_⟩
  · intro h
    simp [getUploadedFileById, h, jsStringOfId]
  · simp [getUploadedFileById, jsStringOfId]

/-- Witness for C10 at the id "a b" (space URI-encoded). -/
theorem getUploadedFileById_guard_witness :
    getUploadedFileById (.str "a b") = .getReq ("/arquivos/" ++ encodeURIComponent "a b") ∧
      encodeURIComponent "a b" = "a%20b" := by
  exact ⟨(getUploadedFileById_guard "a b" 0).2.2.2.1 (by decide), by decide⟩

/-! ## Legacy/ISO period conversion -/

/-- JS `s.split("-")` on a string viewed as its character list. -/
def splitDash : List Char → List (List Char)
  | [] => [[]]
  | '-' :: rest => [] :: splitDash rest
  | c :: rest =>
    match splitDash rest with
    | [] => [[c]]
    | h :: t => (c :: h) :: t

/-- JS `s.padStart(2, "0")`. -/
def padStart2 (s : List Char) : List Char :=
  List.replicate (2 - s.length) '0' ++ s

/-- The start-date arm of `legacyToNormalized` (arquivoService.ts lines
72-94): day and month are zero-padded to two digits when non-empty
(`s ? s.padStart(2, "0") : undefined`), and when year, padded month and
padded day are all truthy they are joined as `${ano}-${mes}-${dia}`;
otherwise the date is `undefined`. -/
def legacyToIso (dia mes ano : List Char) : Option (List Char) :=
  let diaP : Option (List Char) := if dia.isEmpty then none else some (padStart2 dia)
  let mesP : Option (List Char) := if mes.isEmpty then none else some (padStart2 mes)
  if ano.isEmpty then none
  else
    match mesP, diaP with
    | some m, some d => some (ano ++ '-' :: m ++ '-' :: d)
    | _, _ => none

/-- `isoToLegacyPeriod` (ListarArquivos/index.tsx lines 60-67): split the
ISO string on "-"; with exactly three parts the result is
(dia, mes, ano) = (parts[2], parts[1], parts[0]); otherwise the defensive
default ("01", "01", current year).  The ambient current year
(`new Date().getFullYear()`) is passed as the `nowYear` parameter. -/
def isoToLegacyPeriod (nowYear : List Char) (iso : List Char) :
    List Char × List Char × List Char :=
  match splitDash iso with
  | [a, b, c] => (c, b, a)
  | _ => (['0', '1'], ['0', '1'], nowYear)

theorem splitDash_cons_ne {c : Char} (hc : c ≠ '-') (rest : List Char) :
    splitDash (c :: rest)
      = match splitDash rest with
        | [] => [[c]]
        | h :: t => (c :: h) :: t := by
  conv_lhs => rw [splitDash.eq_def]
  split
  · rename_i heq
    exact (List.cons_ne_nil _ _ heq).elim
  · rename_i rest' heq
    exact absurd (List.cons.inj heq).1 hc
  · rename_i c' rest' hne1 hne2 heq
    obtain ⟨h1, h2⟩ := List.cons.inj heq
    subst h1
    subst h2
    rfl

theorem splitDash_no_dash {l : List Char} (h : '-' ∉ l) : splitDash l = [l] := by
  induction l with
  | nil => rfl
  | cons c rest ih =>
    have hc : c ≠ '-' := fun hx => h (hx ▸ List.mem_cons_self _ _)
    have hr : '-' ∉ rest := fun hx => h (List.mem_cons_of_mem _ hx)
    rw [splitDash_cons_ne hc, ih hr]

theorem splitDash_append_two {b c : List Char} (hb : '-' ∉ b) (hc : '-' ∉ c) :
    splitDash (b ++ '-' :: c) = [b, c] := by
  induction b with
  | nil =>
    show splitDash ('-' :: c) = [[], c]
    rw [show splitDash ('-' :: c) = [] :: splitDash c from rfl, splitDash_no_dash hc]
  | cons x xs ih =>
    have hx : x ≠ '-' := fun hxe => hb (hxe ▸ List.mem_cons_self _ _)
    have hxs : '-' ∉ xs := fun hxe => hb (List.mem_cons_of_mem _ hxe)
    show splitDash (x :: (xs ++ '-' :: c)) = [x :: xs, c]
    rw [splitDash_cons_ne hx, ih hxs]

theorem splitDash_append_three {a b c : List Char} (ha : '-' ∉ a) (hb : '-' ∉ b)
    (hc : '-' ∉ c) : splitDash (a ++ '-' :: b ++ '-' :: c) = [a, b, c] := by
  induction a with
  | nil =>
    show splitDash ('-' :: (b ++ '-' :: c)) = [[], b, c]
    rw [show splitDash ('-' :: (b ++ '-' :: c)) = [] :: splitDash (b ++ '-' :: c) from rfl,
      splitDash_append_two hb hc]
  | cons x xs ih =>
    have hx : x ≠ '-' := fun hxe => ha (hxe ▸ List.mem_cons_self _ _)
    have hxs : '-' ∉ xs := fun hxe => ha (List.mem_cons_of_mem _ hxe)
    show splitDash (x :: (xs ++ '-' :: b ++ '-' :: c)) = [x :: xs, b, c]
    rw [splitDash_cons_ne hx, ih hxs]

theorem not_dash_of_digits {l : List Char} (h : ∀ c ∈ l, c.isDigit = true) :
    '-' ∉ l :=
  fun hin => by simpa using h '-' hin

theorem not_dash_padStart2 {l : List Char} (h : ∀ c ∈ l, c.isDigit = true) :
    '-' ∉ padStart2 l := by
  intro hin
  rcases List.mem_append.mp hin with hrep | hmem
  · have := List.eq_of_mem_replicate hrep
    simp at this
  · exact not_dash_of_digits h hmem

/-- C9.  For a complete legacy date triple of non-empty digit strings,
legacy→ISO zero-pads day and month to two digits and joins
year-month-day with '-'; splitting the resulting ISO string back into
the three-part legacy form returns exactly the padded day, the padded
month and the year — the round-trip is the identity up to padding. -/
theorem legacy_iso_roundtrip :
    ∀ dia mes ano : List Char,
      dia ≠ [] → mes ≠ [] → ano ≠ [] →
      (∀ c ∈ dia, c.isDigit = true) → (∀ c ∈ mes, c.isDigit = true) →
      (∀ c ∈ ano, c.isDigit = true) →
      ∀ nowYear : List Char,
        legacyToIso dia mes ano
            = some (ano ++ '-' :: padStart2 mes ++ '-' :: padStart2 dia) ∧
          isoToLegacyPeriod nowYear (ano ++ '-' :: padStart2 mes ++ '-' :: padStart2 dia)
            = (padStart2 dia, padStart2 mes, ano) := by
  intro dia mes ano hd hm ha hdd hmd had nowYear
  constructor
  · simp [legacyToIso, List.isEmpty_iff, hd, hm, ha]
  · rw [isoToLegacyPeriod,
      splitDash_append_three (not_dash_of_digits had) (not_dash_padStart2 hmd)
        (not_dash_padStart2 hdd)]

/-- Witness for C9 at the legacy triple dia "3", mes "7", ano "2023". -/
theorem legacy_iso_roundtrip_witness :
    legacyToIso ['3'] ['7'] ['2', '0', '2', '3']
        = some ['2', '0', '2', '3', '-', '0', '7', '-', '0', '3'] ∧
      isoToLegacyPeriod ['2', '0', '2', '5']
          ['2', '0', '2', '3', '-', '0', '7', '-', '0', '3']
        = (['0', '3'], ['0', '7'], ['2', '0', '2', '3']) := by
  have h := legacy_iso_roundtrip ['3'] ['7'] ['2', '0', '2', '3']
    (by decide) (by decide) (by decide) (by decide) (by decide) (by decide)
    ['2', '0', '2', '5']
  exact ⟨h.1, h.2⟩

/-! ## The JS `Date` constructor and `isValidDate` -/

/-- Proleptic-Gregorian leap-year test (the rule applied by the JS
`Date`). -/
def isLeap (y : Int) : Bool :=
  y % 4 == 0 && (y % 100 != 0 || y % 400 == 0)

/-- Number of days in month `m` (1-12) of year `y`. -/
def daysInMonthG (y m : Int) : Int :=
  if m = 2 then (if isLeap y then 29 else 28)
  else if m = 4 ∨ m = 6 ∨ m = 9 ∨ m = 11 then 30
  else 31

/-- ECMAScript `MakeFullYear`: `new Date(y, ...)` maps a year argument
between 0 and 99 to 1900 + y. -/
def yAdj (y : Int) : Int :=
  if 0 ≤ y ∧ y ≤ 99 then y + 1900 else y

/-- Day-overflow normalization performed by `new Date(y, m-1, d)` for a
month already in 1..12 and a day ≥ 1: days beyond the month's length roll
into the following months.  The fuel bounds the number of month steps;
`d.toNat` is always sufficient since every step consumes at least 28
days. -/
def rollFuel : Nat → Int → Int → Int → Int × Int × Int
  | 0, y, m, d => (y, m, d)
  | fuel + 1, y, m, d =>
    if d ≤ daysInMonthG y m then (y, m, d)
    else
      if m = 12 then rollFuel fuel (y + 1) 1 (d - daysInMonthG y m)
      else rollFuel fuel y (m + 1) (d - daysInMonthG y m)

/-- The (getFullYear(), getMonth()+1, getDate()) triple of
`new Date(y, m-1, d)` for 1 ≤ m ≤ 12 and d ≥ 1. -/
def jsDateYMD (y m d : Int) : Int × Int × Int :=
  rollFuel d.toNat (yAdj y) m d

/-- `isValidDate` (FileTable.tsx lines 359-364): reject months outside
1..12 and days below 1, then build `new Date(y, m - 1, d)` and require its
year, month (+1) and day components to equal the inputs. -/
def isValidDate (y m d : Int) : Bool :=
  if m < 1 ∨ m > 12 then false
  else if d < 1 then false
  else
    decide ((jsDateYMD y m d).1 = y) && decide ((jsDateYMD y m d).2.1 = m) &&
      decide ((jsDateYMD y m d).2.2 = d)

/-- A real proleptic-Gregorian calendar date. -/
def isRealDate (y m d : Int) : Bool :=
  decide (1 ≤ m) && decide (m ≤ 12) && decide (1 ≤ d) &&
    decide (d ≤ daysInMonthG y m)

theorem rollFuel_year_month (fuel : Nat) : ∀ y m d : Int,
    (rollFuel fuel y m d).1 > y ∨
      ((rollFuel fuel y m d).1 = y ∧ (rollFuel fuel y m d).2.1 ≥ m) := by
  induction fuel with
  | zero => exact fun y m d => Or.inr ⟨rfl, le_refl m⟩
  | succ f ih =>
    intro y m d
    simp only [rollFuel]
    split
    · exact Or.inr ⟨rfl, le_refl m⟩
    · split
      · rcases ih (y + 1) 1 (d - daysInMonthG y m) with h | ⟨h1, h2⟩
        · exact Or.inl (by omega)
        · exact Or.inl (by omega)
      · rcases ih y (m + 1) (d - daysInMonthG y m) with h | ⟨h1, h2⟩
        · exact Or.inl h
        · exact Or.inr ⟨h1, by omega⟩

theorem rollFuel_strict {f : Nat} {y m d : Int} (hd : d > daysInMonthG y m) :
    (rollFuel (f + 1) y m d).1 > y ∨
      ((rollFuel (f + 1) y m d).1 = y ∧ (rollFuel (f + 1) y m d).2.1 > m) := by
  simp only [rollFuel]
  split
  · rename_i h
    exact absurd h (by omega)
  · split
    · rcases rollFuel_year_month f (y + 1) 1 (d - daysInMonthG y m) with h | ⟨h1, h2⟩
      · exact Or.inl (by omega)
      · exact Or.inl (by omega)
    · rcases rollFuel_year_month f y (m + 1) (d - daysInMonthG y m) with h | ⟨h1, h2⟩
      · exact Or.inl h
      · exact Or.inr ⟨h1, by omega⟩

theorem rollFuel_fix {f : Nat} {y m d : Int} (hd : d ≤ daysInMonthG y m) :
    rollFuel (f + 1) y m d = (y, m, d) := by
  simp [rollFuel, hd]

theorem isValidDate_eq_real {y m d : Int} (hy : yAdj y = y) :
    isValidDate y m d = true ↔ isRealDate y m d = true := by
  unfold isValidDate
  by_cases hm : m < 1 ∨ m > 12
  · simp only [if_pos hm]
    simp [isRealDate, decide_eq_true_eq]
    omega
  · by_cases hd : d < 1
    · simp only [if_neg hm, if_pos hd]
      simp [isRealDate, decide_eq_true_eq]
      omega
    · simp only [if_neg hm, if_neg hd]
      unfold jsDateYMD
      rw [hy]
      by_cases hdm : d ≤ daysInMonthG y m
      · obtain ⟨f, hf⟩ : ∃ f, d.toNat = f + 1 := ⟨d.toNat - 1, by omega⟩
        rw [hf, rollFuel_fix hdm]
        simp [isRealDate, decide_eq_true_eq]
        omega
      · obtain ⟨f, hf⟩ : ∃ f, d.toNat = f + 1 := ⟨d.toNat - 1, by omega⟩
        rw [hf]
        have hstrict := rollFuel_strict (f := f) (y := y) (m := m) (d := d) (by omega)
        simp only [Bool.and_eq_true, decide_eq_true_eq, isRealDate]
        constructor
        · rintro ⟨⟨hy', hm'⟩, -⟩
          rcases hstrict with h | ⟨h1, h2⟩
          · exact absurd hy' (by omega)
          · exact absurd hm' (by omega)
        · rintro ⟨⟨-, -⟩, hdd⟩
          exact absurd hdd (by omega)

theorem isValidDate_twoDigit_false {y m d : Int} (h0 : 0 ≤ y) (h99 : y ≤ 99) :
    isValidDate y m d = false := by
  unfold isValidDate
  by_cases hm : m < 1 ∨ m > 12
  · simp [hm]
  · by_cases hd : d < 1
    · simp [hm, hd]
    · simp only [if_neg hm, if_neg hd]
      unfold jsDateYMD
      rw [show yAdj y = y + 1900 from by rw [yAdj, if_pos ⟨h0, h99⟩]]
      have hlex := rollFuel_year_month d.toNat (y + 1900) m d
      rw [Bool.eq_false_iff]
      intro htrue
      simp only [Bool.and_eq_true, decide_eq_true_eq] at htrue
      obtain ⟨⟨hy', -⟩, -⟩ := htrue
      rcases hlex with h | ⟨h1, -⟩
      · omega
      · omega

/-- C5 (amended).  For years 100 to 9999, `isValidDate` returns true
exactly on real calendar dates (so day 31 of a 30-day month and February
29 of a non-leap year are rejected, and every real date is accepted); but
for years 1 to 99 it returns false even on real calendar dates, because
`new Date(y, m, d)` maps a two-digit year argument to 1900 + y. -/
theorem isValidDate_calendar :
    ∀ y m d : Int,
      (100 ≤ y → y ≤ 9999 → (isValidDate y m d = true ↔ isRealDate y m d = true)) ∧
      (1 ≤ y → y ≤ 99 → isValidDate y m d = false) := by
  intro y m d
  constructor
  · intro h1 h2
    exact isValidDate_eq_real (by rw [yAdj, if_neg (by omega)])
  · intro h1 h2
    exact isValidDate_twoDigit_false (by omega) h2

/-- C5 counterexample: (50, 1, 1) is a real calendar date inside the
claimed year range 1..9999, yet `isValidDate 50 1 1` is false
(`new Date(50, 0, 1)` is January 1st, 1950). -/
theorem isValidDate_year50_false :
    isValidDate 50 1 1 = false ∧ isRealDate 50 1 1 = true := by
  decide

/-- Witness for C5: Feb 29 accepted in leap year 2024, rejected in 2023;
day 31 of April rejected; a real date in a two-digit year rejected. -/
theorem isValidDate_calendar_witness :
    isValidDate 2024 2 29 = true ∧ isRealDate 2024 2 29 = true ∧
      isValidDate 2023 2 29 = false ∧ isRealDate 2023 2 29 = false ∧
      isValidDate 2023 4 31 = false ∧ isValidDate 99 5 5 = false := by
  refine ⟨((isValidDate_calendar 2024 2 29).1 (by decide) (by decide)).mpr (by decide),
    by decide, ?_, by decide, ?_, (isValidDate_calendar 99 5 5).2 (by decide) (by decide)⟩
  · have h := (isValidDate_calendar 2023 2 29).1 (by decide) (by decide)
    cases hb : isValidDate 2023 2 29 with
    | false => rfl
    | true => exact absurd (h.mp hb) (by decide)
  · have h := (isValidDate_calendar 2023 4 31).1 (by decide) (by decide)
    cases hb : isValidDate 2023 4 31 with
    | false => rfl
    | true => exact absurd (h.mp hb) (by decide)

/-! ## Rata die: the day count behind `Date.prototype.getTime` -/

/-- 1 for a leap year, 0 otherwise. -/
def leapBit (y : Int) : Int :=
  if isLeap y then 1 else 0

/-- Days before month `m` (1-12) in a non-leap year. -/
def monthPrefix (m : Int) : Int :=
  if m = 1 then 0 else if m = 2 then 31 else if m = 3 then 59 else if m = 4 then 90
  else if m = 5 then 120 else if m = 6 then 151 else if m = 7 then 181
  else if m = 8 then 212 else if m = 9 then 243 else if m = 10 then 273
  else if m = 11 then 304 else 334

/-- 1-based ordinal of the day within its year. -/
def dayOfYear (y m d : Int) : Int :=
  monthPrefix m + (if 2 < m then leapBit y else 0) + d

/-- Days in the proleptic Gregorian calendar strictly before year `y`,
counted from day 1 = January 1st of year 1. -/
def daysBeforeYear (y : Int) : Int :=
  365 * (y - 1) + (y - 1) / 4 - (y - 1) / 100 + (y - 1) / 400

/-- The rata-die number of a date: `Date.getTime()` of the UTC midnight of
a calendar day is an affine strictly increasing function of this count. -/
def rataDie (y m d : Int) : Int :=
  daysBeforeYear y + dayOfYear y m d

theorem leapBit_bounds (y : Int) : 0 ≤ leapBit y ∧ leapBit y ≤ 1 := by
  unfold leapBit
  split <;> omega

theorem dayOfYear_bounds {y m d : Int} (hm1 : 1 ≤ m) (hm2 : m ≤ 12) (hd1 : 1 ≤ d)
    (hd2 : d ≤ daysInMonthG y m) :
    1 ≤ dayOfYear y m d ∧ dayOfYear y m d ≤ 365 + leapBit y := by
  cases hl : isLeap y <;>
    (interval_cases m <;> simp_all [dayOfYear, monthPrefix, daysInMonthG, leapBit] <;> omega)

set_option maxHeartbeats 2000000 in
theorem dayOfYear_lt_of_month_lt {y m1 d1 m2 d2 : Int} (hm1 : 1 ≤ m1) (hm12 : m1 < m2)
    (hm2 : m2 ≤ 12) (hd1l : 1 ≤ d1) (hd1 : d1 ≤ daysInMonthG y m1) (hd2 : 1 ≤ d2) :
    dayOfYear y m1 d1 < dayOfYear y m2 d2 := by
  have hm1u : m1 ≤ 11 := by omega
  have hm2l : 2 ≤ m2 := by omega
  cases hl : isLeap y <;>
    (interval_cases m1 <;> interval_cases m2 <;>
      simp only [dayOfYear, monthPrefix, daysInMonthG, leapBit, hl] at hd1 ⊢ <;>
      norm_num at hd1 ⊢ <;> omega)

theorem daysBeforeYear_step (y : Int) :
    daysBeforeYear (y + 1) = daysBeforeYear y + 365 + leapBit y := by
  unfold daysBeforeYear leapBit isLeap
  split <;> rename_i h <;>
    simp only [Bool.and_eq_true, Bool.or_eq_true, beq_iff_eq, bne_iff_ne,
      Bool.not_eq_true] at h <;>
    omega

theorem daysBeforeYear_add (k : Nat) (y : Int) :
    daysBeforeYear y + 365 * k ≤ daysBeforeYear (y + k) := by
  induction k with
  | zero => simp
  | succ n ih =>
    have hstep := daysBeforeYear_step (y + n)
    have hlb := leapBit_bounds (y + n)
    push_cast
    push_cast at ih
    rw [show y + ((n : Int) + 1) = (y + (n : Int)) + 1 from by ring]
    omega

theorem rataDie_lt_of_lex {y1 m1 d1 y2 m2 d2 : Int}
    (h1 : isRealDate y1 m1 d1 = true) (h2 : isRealDate y2 m2 d2 = true)
    (hlex : y1 < y2 ∨ (y1 = y2 ∧ (m1 < m2 ∨ (m1 = m2 ∧ d1 < d2)))) :
    rataDie y1 m1 d1 < rataDie y2 m2 d2 := by
  simp only [isRealDate, Bool.and_eq_true, decide_eq_true_eq] at h1 h2
  obtain ⟨⟨⟨hm11, hm12⟩, hd11⟩, hd12⟩ := h1
  obtain ⟨⟨⟨hm21, hm22⟩, hd21⟩, hd22⟩ := h2
  rcases hlex with hy | ⟨hy, hm | ⟨hm, hd⟩⟩
  · have hb1 := dayOfYear_bounds hm11 hm12 hd11 hd12
    have hb2 := dayOfYear_bounds hm21 hm22 hd21 hd22
    have hstep := daysBeforeYear_step y1
    have hadd := daysBeforeYear_add (y2 - (y1 + 1)).toNat (y1 + 1)
    rw [show (y1 + 1) + ((y2 - (y1 + 1)).toNat : Int) = y2 from by omega] at hadd
    unfold rataDie
    have hk : (0 : Int) ≤ ((y2 - (y1 + 1)).toNat : Int) := by positivity
    have hlb := leapBit_bounds y1
    nlinarith [hadd, hstep, hb1.2, hb2.1, hk]
  · subst hy
    have := dayOfYear_lt_of_month_lt hm11 hm hm22 hd11 hd12 hd21
    unfold rataDie
    omega
  · subst hy
    subst hm
    unfold rataDie dayOfYear
    omega

/-! ## Decimal digit strings: printing and parsing round trip -/

theorem digitChar_isDigit (n : Nat) : (digitChar n).isDigit = true := by
  unfold digitChar
  split_ifs <;> decide

theorem digitChar_toNat {n : Nat} (h : n < 10) : (digitChar n).toNat - 48 = n := by
  interval_cases n <;> decide

theorem natToChars_lt {n : Nat} (h : n < 10) : natToChars n = [digitChar n] := by
  rw [natToChars.eq_def, if_pos h]

theorem natToChars_step {n : Nat} (h : ¬ n < 10) :
    natToChars n = natToChars (n / 10) ++ [digitChar (n % 10)] := by
  conv_lhs => rw [natToChars.eq_def]
  rw [if_neg h]

theorem natToChars_digits (n : Nat) : ∀ c ∈ natToChars n, c.isDigit = true := by
  induction n using Nat.strong_induction_on with
  | _ n ih =>
    by_cases h : n < 10
    · rw [natToChars_lt h]
      intro c hc
      simp at hc
      subst hc
      exact digitChar_isDigit n
    · rw [natToChars_step h]
      intro c hc
      rcases List.mem_append.mp hc with hc1 | hc2
      · exact ih (n / 10) (by omega) c hc1
      · simp at hc2
        subst hc2
        exact digitChar_isDigit _

theorem digitsVal_append_single (xs : List Char) (c : Char) :
    digitsVal (xs ++ [c]) = 10 * digitsVal xs + (c.toNat - 48) := by
  simp [digitsVal, List.foldl_append]

theorem digitsVal_natToChars (n : Nat) : digitsVal (natToChars n) = n := by
  induction n using Nat.strong_induction_on with
  | _ n ih =>
    by_cases h : n < 10
    · rw [natToChars_lt h]
      simp [digitsVal]
      rw [digitChar_toNat h]
    · rw [natToChars_step h, digitsVal_append_single, ih (n / 10) (by omega),
        digitChar_toNat (by omega)]
      omega

theorem natToChars_len1 {n : Nat} (h : n < 10) : (natToChars n).length = 1 := by
  rw [natToChars_lt h]
  rfl

theorem natToChars_len4 {n : Nat} (h1 : 1000 ≤ n) (h2 : n < 10000) :
    (natToChars n).length = 4 := by
  rw [natToChars_step (by omega), natToChars_step (n := n / 10) (by omega),
    natToChars_step (n := n / 10 / 10) (by omega)]
  simp [natToChars_len1 (n := n / 10 / 10 / 10) (by omega)]

theorem digitsVal_pair (a b : Char) :
    digitsVal [a, b] = 10 * (a.toNat - 48) + (b.toNat - 48) := by
  simp [digitsVal]

/-! ## ISO date strings: `toIso` in PeriodSelector, ECMAScript parsing -/

/-- `pad2` (FileTable.tsx line 384): two-digit zero padding. -/
def pad2 (n : Int) : List Char :=
  if n < 10 then '0' :: intToChars n else intToChars n

/-- `toIso` (FileTable.tsx line 386): `${y}-${pad2(m)}-${pad2(d)}`. -/
def toIso (y m d : Int) : List Char :=
  intToChars y ++ '-' :: pad2 m ++ '-' :: pad2 d

/-- The format/validity checks and time value of ECMAScript
`Date.parse` on a "YYYY-MM-DD" candidate already split at the dashes:
four/two/two decimal digits, month 1..12, day within the month, and the
time value is the rata-die day count relative to the epoch times 86400000
ms.  Out-of-range components give an invalid date (NaN, modelled as
`none`). -/
def parseIsoParts (ys ms ds : List Char) : Option Int :=
  if ys.length = 4 ∧ (∀ c ∈ ys, c.isDigit = true) ∧ ms.length = 2 ∧
      (∀ c ∈ ms, c.isDigit = true) ∧ ds.length = 2 ∧ (∀ c ∈ ds, c.isDigit = true) then
    if 1 ≤ (digitsVal ms : Int) ∧ (digitsVal ms : Int) ≤ 12 ∧ 1 ≤ (digitsVal ds : Int) ∧
        (digitsVal ds : Int) ≤ daysInMonthG (digitsVal ys : Int) (digitsVal ms : Int) then
      some ((rataDie (digitsVal ys : Int) (digitsVal ms : Int) (digitsVal ds : Int)
        - rataDie 1970 1 1) * 86400000)
    else none
  else none

/-- `new Date(iso).getTime()` for an ISO "YYYY-MM-DD" date-only string:
split at the dashes and delegate to `parseIsoParts`; any other shape is an
invalid date (NaN, modelled `none`). -/
def parseIsoChars (l : List Char) : Option Int :=
  match splitDash l with
  | [ys, ms, ds] => parseIsoParts ys ms ds
  | _ => none

theorem pad2_spec {n : Int} (h1 : 1 ≤ n) (h2 : n ≤ 31) :
    (pad2 n).length = 2 ∧ (∀ c ∈ pad2 n, c.isDigit = true) ∧
      ((digitsVal (pad2 n) : Nat) : Int) = n := by
  unfold pad2 intToChars
  by_cases hn : n < 10
  · rw [if_pos hn, if_neg (by omega : ¬ n < 0), natToChars_lt (by omega : n.toNat < 10)]
    refine ⟨rfl, ?_, ?_⟩
    · intro c hc
      simp at hc
      rcases hc with hc | hc <;> subst hc
      · decide
      · exact digitChar_isDigit _
    · rw [digitsVal_pair]
      have h0 : '0'.toNat = 48 := rfl
      have := digitChar_toNat (n := n.toNat) (by omega)
      omega
  · rw [if_neg hn, if_neg (by omega : ¬ n < 0),
      natToChars_step (by omega : ¬ n.toNat < 10),
      natToChars_lt (by omega : n.toNat / 10 < 10)]
    refine ⟨rfl, ?_, ?_⟩
    · intro c hc
      simp at hc
      rcases hc with hc | hc <;> subst hc <;> exact digitChar_isDigit _
    · rw [show [digitChar (n.toNat / 10)] ++ [digitChar (n.toNat % 10)]
          = [digitChar (n.toNat / 10), digitChar (n.toNat % 10)] from rfl, digitsVal_pair]
      have ha := digitChar_toNat (n := n.toNat / 10) (by omega)
      have hb := digitChar_toNat (n := n.toNat % 10) (by omega)
      omega

theorem year4_spec {n : Int} (h1 : 1000 ≤ n) (h2 : n ≤ 9999) :
    (intToChars n).length = 4 ∧ (∀ c ∈ intToChars n, c.isDigit = true) ∧
      ((digitsVal (intToChars n) : Nat) : Int) = n := by
  unfold intToChars
  rw [if_neg (by omega : ¬ n < 0)]
  refine ⟨natToChars_len4 (by omega) (by omega), natToChars_digits _, ?_⟩
  rw [digitsVal_natToChars]
  omega

theorem parseIso_toIso {y m d : Int} (hy1 : 1000 ≤ y) (hy2 : y ≤ 9999)
    (hm : 1 ≤ m) (hm2 : m ≤ 12) (hd : 1 ≤ d) (hdm : d ≤ daysInMonthG y m) :
    parseIsoChars (toIso y m d)
      = some ((rataDie y m d - rataDie 1970 1 1) * 86400000) := by
  obtain ⟨hyl, hyd, hyv⟩ := year4_spec hy1 hy2
  obtain ⟨hml, hmd, hmv⟩ := pad2_spec hm (by omega)
  obtain ⟨hdl, hdd, hdv⟩ := pad2_spec hd (by
    have h28 : 28 ≤ daysInMonthG y m := by
      unfold daysInMonthG
      split_ifs <;> omega
    have h31 : daysInMonthG y m ≤ 31 := by
      unfold daysInMonthG
      split_ifs <;> omega
    omega)
  unfold toIso parseIsoChars
  rw [splitDash_append_three (fun hin => by simpa using hyd '-' hin)
    (fun hin => by simpa using hmd '-' hin) (fun hin => by simpa using hdd '-' hin)]
  show parseIsoParts (intToChars y) (pad2 m) (pad2 d) = _
  unfold parseIsoParts
  rw [if_pos ⟨hyl, hyd, hml, hmd, hdl, hdd⟩, hyv, hmv, hdv,
    if_pos ⟨hm, hm2, hd, hdm⟩]

/-! ## `handleSubmit` of PeriodSelector -/

/-- Outcome of one `handleSubmit` run: one of the three `setError` early
returns, or `onSubmit` invoked with the two ISO strings. -/
inductive SubmitOutcome where
  | errStartInvalid : SubmitOutcome
  | errEndInvalid : SubmitOutcome
  | errRange : SubmitOutcome
  | submit : List Char → List Char → SubmitOutcome

/-- JS `>` on two possibly-NaN time values: false whenever either side is
NaN. -/
def jsGtNum : Option Int → Option Int → Bool
  | some a, some b => decide (a > b)
  | _, _ => false

/-- `handleSubmit` (FileTable.tsx lines 389-416): reject an invalid start
date, then an invalid end date, then a start date parsing after the end
date (`startDate.getTime() > endDate.getTime()`); otherwise emit the
normalized ISO range through `onSubmit`. -/
def handleSubmit (sy sm sd ey em ed : Int) : SubmitOutcome :=
  if isValidDate sy sm sd = false then .errStartInvalid
  else if isValidDate ey em ed = false then .errEndInvalid
  else if jsGtNum (parseIsoChars (toIso sy sm sd)) (parseIsoChars (toIso ey em ed))
      = true then .errRange
  else .submit (toIso sy sm sd) (toIso ey em ed)

/-- C6.  When both selected dates are individually valid (years in the
four-digit range the year selectors offer) and the start date is
chronologically after the end date, `handleSubmit` stops with the range
error — `onSubmit` is not invoked, so no request is issued. -/
theorem handleSubmit_rejects_inverted_range :
    ∀ sy sm sd ey em ed : Int,
      1000 ≤ sy → sy ≤ 9999 → 1000 ≤ ey → ey ≤ 9999 →
      isValidDate sy sm sd = true → isValidDate ey em ed = true →
      (ey < sy ∨ (ey = sy ∧ (em < sm ∨ (em = sm ∧ ed < sd)))) →
      handleSubmit sy sm sd ey em ed = .errRange := by
  intro sy sm sd ey em ed hs1 hs2 he1 he2 hv1 hv2 hlex
  have hr1 : isRealDate sy sm sd = true :=
    (isValidDate_eq_real (by rw [yAdj, if_neg (by omega)])).mp hv1
  have hr2 : isRealDate ey em ed = true :=
    (isValidDate_eq_real (by rw [yAdj, if_neg (by omega)])).mp hv2
  have hp1 := hr1
  have hp2 := hr2
  simp only [isRealDate, Bool.and_eq_true, decide_eq_true_eq] at hp1 hp2
  obtain ⟨⟨⟨hm11, hm12⟩, hd11⟩, hd12⟩ := hp1
  obtain ⟨⟨⟨hm21, hm22⟩, hd21⟩, hd22⟩ := hp2
  have hlt : rataDie ey em ed < rataDie sy sm sd := rataDie_lt_of_lex hr2 hr1 hlex
  unfold handleSubmit
  rw [if_neg (by simp [hv1]), if_neg (by simp [hv2]),
    parseIso_toIso hs1 hs2 hm11 hm12 hd11 hd12,
    parseIso_toIso he1 he2 hm21 hm22 hd21 hd22]
  rw [if_pos]
  simp only [jsGtNum, decide_eq_true_eq]
  omega

/-- Witness for C6: start 2024-02-01, end 2023-12-31 (both valid, start
after end) is rejected with the range error. -/
theorem handleSubmit_rejects_inverted_range_witness :
    handleSubmit 2024 2 1 2023 12 31 = .errRange := by
  exact handleSubmit_rejects_inverted_range 2024 2 1 2023 12 31
    (by decide) (by decide) (by decide) (by decide) (by decide) (by decide)
    (by decide)

end Tacom
